import Mathlib

/-!
Verification of the build-orchestration subsystem of `scripts/image_builder.py`.

Python strings are embedded as `List Char`.  Each definition below is a
shallow embedding of the correspondingly named Python function; external
effects (subprocess exit codes, stdout text, polled phases, clock readings)
are passed in as explicit parameters or oracle traces.
-/

/-- Python `str.isspace`-style check for the ASCII whitespace characters that
`str.strip()` removes (the unicode-only whitespace code points are not
modelled; none of the embedded literals contain them). -/
def pyIsSpace (c : Char) : Bool :=
  c == ' ' || c == '\t' || c == '\n' || c == '\r' || c == '\x0b' || c == '\x0c'

/-- Python `str.strip()`: drop leading and trailing whitespace. -/
def pyStrip (s : List Char) : List Char :=
  ((s.dropWhile pyIsSpace).reverse.dropWhile pyIsSpace).reverse

/-- Python `str.lower()` (ASCII range, which is all the embedded patterns use). -/
def toLowerStr (s : List Char) : List Char := s.map Char.toLower

/-- Boolean test that `pat` is an initial segment of `s`. -/
def startsWithB : List Char → List Char → Bool
  | [], _ => true
  | _ :: _, [] => false
  | c :: p, d :: s => c == d && startsWithB p s

/-- Boolean test that `pat` occurs contiguously inside `s` (Python `pat in s`). -/
def containsSubB (pat : List Char) : List Char → Bool
  | [] => startsWithB pat []
  | s@(_ :: t) => startsWithB pat s || containsSubB pat t

/-- Python `s.split(sep)` for a one-character separator. -/
def splitOnChar (sep : Char) : List Char → List (List Char)
  | [] => [[]]
  | c :: cs =>
    if c = sep then [] :: splitOnChar sep cs
    else
      match splitOnChar sep cs with
      | [] => [[c]]
      | l :: ls => (c :: l) :: ls

/-- Python `sep.join(lines)` for a one-character separator. -/
def joinWithChar (sep : Char) : List (List Char) → List Char
  | [] => []
  | [l] => l
  | l :: l' :: ls => l ++ sep :: joinWithChar sep (l' :: ls)

/-- Python `s.split("\n")`. -/
def splitNl (s : List Char) : List (List Char) := splitOnChar '\n' s

/-- Python `"\n".join(lines)`. -/
def joinNl (lines : List (List Char)) : List Char := joinWithChar '\n' lines

/-! Embedding of `ImageBuilder._inject_custom_packages` (image_builder.py lines 135-213).
The Python function splits the dockerfile on newlines, replaces the region that
begins at the line containing the start marker and ends right before a line
containing one of the end markers, and joins the result with newlines. -/

/-- The start-of-region marker (line 153 of the source). -/
def startMarker : List Char := "Install transformers and related libraries".toList

/-- End-of-region test (lines 199-203 of the source). -/
def endMarkerHit (l : List Char) : Bool :=
  containsSubB "Install VideoLLaMA2".toList l ||
  containsSubB "NumPy 1.x Required".toList l ||
  containsSubB "Install code-server".toList l

/-- The single-quote character, so the heredoc delimiter line can be written without a literal quote. -/
def quoteCh : Char := Char.ofNat 39

/-- Line 168 of the source: the heredoc opening line of the requirements block. -/
def reqHeredocOpen : List Char :=
  "RUN cat > /tmp/user-requirements.txt <<".toList ++ [quoteCh, 'E', 'O', 'F', quoteCh]

/-- Line 172-174 of the source: the pip invocation for the requirements file. -/
def reqRunLine : List Char :=
  "RUN pip install --no-cache-dir --constraint /tmp/constraints.txt -r /tmp/user-requirements.txt".toList

/-- Lines 180-183 of the source: single-line install directive for at most 3 packages. -/
def installPfxLine (pkgs : List (List Char)) : List Char :=
  "RUN pip install --no-cache-dir --constraint /tmp/constraints.txt ".toList ++
    joinWithChar ' ' pkgs

/-- Lines 186-188 of the source: the opening line of the multi-line install directive. -/
def contHeader : List Char :=
  "RUN pip install --no-cache-dir --constraint /tmp/constraints.txt \\".toList

/-- Lines 189-193 of the source: one indented continuation line per package,
every line but the last ending in a backslash continuation. -/
def contLines : List (List Char) → List (List Char)
  | [] => []
  | [p] => ["    ".toList ++ p]
  | p :: q :: rest => ("    ".toList ++ p ++ " \\".toList) :: contLines (q :: rest)

/-- Lines 158-195 of the source: the block of lines substituted for the marked
region.  A requirements file takes precedence over the package list, the
requirements contents are embedded after `str.strip()`, and a package list of
at most 3 entries is rendered on one line, otherwise as continuation lines. -/
def customBlock (pkgs : List (List Char)) (req : Option (List Char)) : List (List Char) :=
  ["# Custom package installation (user-specified)".toList, []] ++
  (match req with
   | some rc =>
     ["# Install packages from requirements.txt".toList, reqHeredocOpen,
      pyStrip rc, "EOF".toList, [], reqRunLine]
   | none =>
     if pkgs.isEmpty then []
     else
       "# Install user-specified packages".toList ::
         (if pkgs.length ≤ 3 then [installPfxLine pkgs]
          else contHeader :: contLines pkgs)) ++ [[]]

/-- The per-line loop of `_inject_custom_packages` (lines 151-211): a line
containing the start marker is replaced by `customBlock` and turns skipping on;
a line containing an end marker turns skipping off and is kept; skipped lines
are dropped; all other lines are kept. -/
def injectLoop (pkgs : List (List Char)) (req : Option (List Char)) :
    List (List Char) → Bool → List (List Char)
  | [], _ => []
  | line :: rest, skip =>
    if containsSubB startMarker line then
      customBlock pkgs req ++ injectLoop pkgs req rest true
    else
      let skip' := skip && !endMarkerHit line
      if skip' then injectLoop pkgs req rest skip'
      else line :: injectLoop pkgs req rest skip'

/-- The line list produced by `_inject_custom_packages` before the final join. -/
def injectLines (d : List Char) (pkgs : List (List Char)) (req : Option (List Char)) :
    List (List Char) :=
  injectLoop pkgs req (splitNl d) false

/-- The function `ImageBuilder._inject_custom_packages` itself: split, rewrite, join. -/
def injectCustomPackages (d : List Char) (pkgs : List (List Char))
    (req : Option (List Char)) : List Char :=
  joinNl (injectLines d pkgs req)

/-- The guard at line 128 of `generate_buildconfig`: the injection only runs
when a package list or a requirements file was actually supplied. -/
def applyPackageInjection (d : List Char) (pkgs : List (List Char))
    (req : Option (List Char)) : List Char :=
  if pkgs ≠ [] ∨ req ≠ none then injectCustomPackages d pkgs req else d

/-- A dockerfile line is an install directive when it starts with `RUN pip install`. -/
def isInstallLine (l : List Char) : Bool :=
  startsWithB "RUN pip install".toList l

/-! Embedding of `BuildErrorHandler` (image_builder.py lines 539-652). -/

/-- Analysis record returned by `analyze_failure` (lines 54-61 of the source). -/
structure ErrorAnalysis where
  error_type : List Char
  message : List Char
  recovery : List Char
  can_retry : Bool
deriving DecidableEq, Repr

/-- An entry of `ERROR_PATTERNS`: either a literal substring pattern or a
pattern of the shape `a.*b` (the only regex operator the table uses). -/
inductive Pat where
  | lit (p : List Char)
  | dotStar (a b : List Char)
deriving DecidableEq, Repr

/-- The maximal run of non-whitespace characters at the front of `s`
(regex `\S+`, greedy). -/
def takeNonSpace (s : List Char) : List Char := s.takeWhile (fun c => !pyIsSpace c)

/-- Search for literal `b` at or after the current position without crossing a
newline (the gap is matched by `.*`, and `.` does not match a newline in
Python's default mode). -/
def searchNoNl (b : List Char) : List Char → Bool
  | [] => false
  | s@(c :: t) => startsWithB b s || (!(c == '\n') && searchNoNl b t)

/-- Python `re.search("a.*b", s)` viewed as a Bool: some occurrence of `a`
followed, on the same line, by an occurrence of `b`. -/
def matchDotStarB (a b : List Char) : List Char → Bool
  | [] => false
  | s@(_ :: t) => (startsWithB a s && searchNoNl b (s.drop a.length)) || matchDotStarB a b t

/-- Whether one pattern of the table matches the (already lowercased) log text. -/
def Pat.matchesIn (s : List Char) : Pat → Bool
  | .lit p => containsSubB p s
  | .dotStar a b => matchDotStarB a b s

/-- Table entry `ERROR_PATTERNS["disk_space"]` (lines 544-548). -/
def diskPatterns : List Pat :=
  [.lit "no space left".toList, .lit "disk quota exceeded".toList,
   .lit "insufficient space".toList]

/-- Table entry `ERROR_PATTERNS["network"]` (lines 549-555). -/
def networkPatterns : List Pat :=
  [.lit "connection refused".toList, .lit "timeout".toList,
   .lit "could not resolve".toList, .lit "failed to fetch".toList,
   .lit "network unreachable".toList]

/-- Table entry `ERROR_PATTERNS["package_not_found"]` (lines 556-561). -/
def packagePatterns : List Pat :=
  [.lit "could not find a version".toList, .lit "no matching distribution".toList,
   .lit "error: no such option".toList, .dotStar "package".toList "not found".toList]

/-- Table entry `ERROR_PATTERNS["dependency_conflict"]` (lines 562-567). -/
def dependencyPatterns : List Pat :=
  [.lit "incompatible".toList, .dotStar "requires".toList "but you have".toList,
   .lit "conflict".toList, .lit "cannot install".toList]

/-- The ordered `ERROR_PATTERNS` table (dict insertion order, lines 543-568). -/
def ERROR_PATTERNS : List (List Char × List Pat) :=
  [("disk_space".toList, diskPatterns),
   ("network".toList, networkPatterns),
   ("package_not_found".toList, packagePatterns),
   ("dependency_conflict".toList, dependencyPatterns)]

/-- Whether any pattern of a category matches the lowercased log text. -/
def anyPat (ps : List Pat) (s : List Char) : Bool := ps.any (fun p => p.matchesIn s)

/-- The double-loop of lines 592-595: first category, in table order, with a
matching pattern. -/
def firstMatch : List (List Char × List Pat) → List Char → Option (List Char)
  | [], _ => none
  | (ty, ps) :: rest, s => if anyPat ps s then some ty else firstMatch rest s

/-- Case-insensitive test that `pat` (given lowercased) starts the suffix `s`
of the original log text. -/
def ciStartsWith (pat s : List Char) : Bool := startsWithB pat (toLowerStr s)

/-! The package-name extraction regex of `_create_analysis` (lines 625-629):
`(?:could not find|no matching).*?(?:package|version).*?["']?(\S+)["']?`
with `re.IGNORECASE`, applied by `re.search` to the original (uncased) logs.
The three functions below specialize Python's leftmost, backtracking match
semantics to this pattern; the captured group is taken from the original text
while comparisons are case-insensitive, and the two lazy `.*?` gaps cannot
cross a newline. -/

/-- Match `["']?(\S+)["']?` preceded by a lazy newline-free gap: at each
position, an optional opening quote is tried first, then the greedy `\S+`
capture; on failure the gap grows by one non-newline character. -/
def tryGroup : List Char → Option (List Char)
  | [] => none
  | c :: t =>
    if c == '"' || c == quoteCh then
      match t with
      | d :: _ => if !pyIsSpace d then some (takeNonSpace t) else some [c]
      | [] => some [c]
    else if !pyIsSpace c then some (takeNonSpace (c :: t))
    else if c == '\n' then none
    else tryGroup t

/-- Match `(?:package|version)` after a lazy newline-free gap, then `tryGroup`;
if the continuation after a keyword fails, the gap keeps growing. -/
def tryKV : List Char → Option (List Char)
  | [] => none
  | s@(c :: t) =>
    if ciStartsWith "package".toList s then
      match tryGroup (s.drop 7) with
      | some g => some g
      | none => if c == '\n' then none else tryKV t
    else if ciStartsWith "version".toList s then
      match tryGroup (s.drop 7) with
      | some g => some g
      | none => if c == '\n' then none else tryKV t
    else if c == '\n' then none else tryKV t

/-- The full `re.search` over the whole pattern: scan for the leftmost position where
the anchor alternation `(?:could not find|no matching)` matches and the rest
of the pattern succeeds; otherwise move the anchor to the right. -/
def tryAnchor : List Char → Option (List Char)
  | [] => none
  | s@(_ :: t) =>
    if ciStartsWith "could not find".toList s then
      match tryKV (s.drop 14) with
      | some g => some g
      | none => tryAnchor t
    else if ciStartsWith "no matching".toList s then
      match tryKV (s.drop 11) with
      | some g => some g
      | none => tryAnchor t
    else tryAnchor t

/-- The value `match.group(1)` of the extraction regex, `none` when the regex fails. -/
def pyExtractPkg (logs : List Char) : Option (List Char) := tryAnchor logs

/-- Embedding of `BuildErrorHandler._create_analysis` (lines 605-652). -/
def createAnalysis (ty : List Char) (logs : List Char) : ErrorAnalysis :=
  if ty = "disk_space".toList then
    ⟨"disk_space".toList,
     "Build failed due to insufficient disk space".toList,
     "Contact cluster administrator to increase build storage quota".toList,
     false⟩
  else if ty = "network".toList then
    ⟨"network".toList,
     "Build failed due to network issues (timeout or connection failure)".toList,
     "Check network connectivity and try again".toList,
     true⟩
  else if ty = "package_not_found".toList then
    ⟨"package_not_found".toList,
     "Package not found: ".toList ++ (pyExtractPkg logs).getD "unknown package".toList,
     "Check package name spelling and version requirements".toList,
     true⟩
  else if ty = "dependency_conflict".toList then
    ⟨"dependency_conflict".toList,
     "Dependency conflict between packages".toList,
     "Review package versions and resolve conflicts, or use pre-built image".toList,
     true⟩
  else
    ⟨"unknown".toList, "Build failed".toList, "Review logs and try again".toList, true⟩

/-- Embedding of `BuildErrorHandler.analyze_failure` (lines 570-603). -/
def analyze_failure (logs phase : List Char) : ErrorAnalysis :=
  if logs = [] then
    ⟨"unknown".toList,
     "Build failed with phase: ".toList ++ phase,
     "Check cluster resources and try again".toList,
     true⟩
  else
    match firstMatch ERROR_PATTERNS (toLowerStr logs) with
    | some ty => createAnalysis ty logs
    | none =>
      ⟨"unknown".toList,
       "Build failed for unknown reason".toList,
       "Review build logs and try again or use pre-built image".toList,
       true⟩

/-! Embedding of `BuildMonitor` (image_builder.py lines 329-536) and of the
submission client (`apply_buildconfig`, `start_build`, lines 215-283). -/

/-- The `BuildResult` dataclass (lines 43-51); optional fields default to `none`. -/
structure BuildResult where
  success : Bool
  image_ref : Option (List Char) := none
  phase : Option (List Char) := none
  logs : Option (List Char) := none
  error : Option (List Char) := none
deriving DecidableEq, Repr

/-- Helper of `_extract_error_from_logs`: line 519 of the source,
`"ERROR:" in line or "error:" in line.lower()`. -/
def errMarkerLine (l : List Char) : Bool :=
  containsSubB "ERROR:".toList l || containsSubB "error:".toList (toLowerStr l)

/-- The curated failure phrases of lines 524-533. -/
def failPhrases : List (List Char) :=
  ["could not find".toList, "no matching distribution".toList, "failed to".toList,
   "connection refused".toList, "timeout".toList]

/-- Line 523-534: whether a line matches one of the curated failure phrases. -/
def failPhraseLine (l : List Char) : Bool :=
  failPhrases.any (fun p => containsSubB p (toLowerStr l))

/-- The generic fallback message of line 536. -/
def genericFailMsg : List Char := "Build failed (see logs for details)".toList

/-- Embedding of `BuildMonitor._extract_error_from_logs` (lines 513-536): last line with an
explicit error marker, else last line with a curated failure phrase, else the
generic message; matched lines are returned stripped. -/
def extractErrorFromLogs (logs : List Char) : List Char :=
  match (splitNl logs).reverse.find? errMarkerLine with
  | some l => pyStrip l
  | none =>
    match (splitNl logs).reverse.find? failPhraseLine with
    | some l => pyStrip l
    | none => genericFailMsg

/-- The literal part of the push-confirmation regex of lines 504-507. -/
def imgLit : List Char :=
  "Successfully pushed image-registry.openshift-image-registry.svc:5000/".toList

/-- The `(\S+)@sha256:(\S+)` tail of the push-confirmation regex, applied to the
text following the literal: the first `\S+` is greedy, so the split is at the
last `@sha256:` of the maximal non-whitespace run that still leaves at least
one character for the second group. -/
def imgCont (rest : List Char) : Option (List Char × List Char) :=
  let run := takeNonSpace rest
  let cands := (List.range (run.length + 1)).filter (fun p =>
    decide (1 ≤ p) && startsWithB "@sha256:".toList (run.drop p) &&
      !(run.drop (p + 8)).isEmpty)
  match cands.getLast? with
  | some p => some (run.take p, run.drop (p + 8))
  | none => none

/-- Embedding of `BuildMonitor._extract_image_from_logs` (lines 501-511). -/
def extractImageFromLogs : List Char → Option (List Char)
  | [] => none
  | s@(_ :: t) =>
    if startsWithB imgLit s then
      match imgCont (s.drop imgLit.length) with
      | some (g1, g2) =>
        some ("image-registry.openshift-image-registry.svc:5000/".toList ++ g1 ++
          "@sha256:".toList ++ g2)
      | none => extractImageFromLogs t
    else extractImageFromLogs t

/-- The terminal phases checked at line 435 of the source. -/
def terminalPhases : List (List Char) :=
  ["Complete".toList, "Failed".toList, "Error".toList, "Cancelled".toList]

/-- The terminal failure phases named by the spec (`Failed`, `Error`, `Cancelled`). -/
def failPhases : List (List Char) :=
  ["Failed".toList, "Error".toList, "Cancelled".toList]

/-- The `BuildResult` of the timeout branch (lines 419-425). -/
def timeoutResult (timeout : Nat) : BuildResult :=
  { success := false, phase := some "Timeout".toList,
    error := some ("Build timed out after ".toList ++ (Nat.repr timeout).toList ++
      " seconds".toList) }

/-- The `BuildResult` of the `KeyboardInterrupt` handler (lines 490-493). -/
def cancelledResult : BuildResult :=
  { success := false, phase := some "Cancelled".toList,
    error := some "Cancelled by user".toList }

/-- One iteration's worth of external observations inside the monitoring loop:
the elapsed clock reading at the top of the iteration (Python's float seconds
modelled as a natural number, which preserves the `elapsed > timeout`
comparison), the phase reported by `get_phase` (`none` models `get_phase`
raising an unexpected exception, e.g. an `OSError` out of `subprocess.run`),
and whether a `KeyboardInterrupt` arrives during this iteration's sleep. -/
structure IterOracle where
  elapsed : Nat
  phase : Option (List Char)
  interrupt : Bool
deriving DecidableEq, Repr

/-- How one call of `monitor_with_progress` can end: a `BuildResult` is
returned (the Bool records whether `log_proc.terminate()` had been called
before the result was constructed), an unexpected exception propagates out
(again with the termination flag), or the oracle trace ran out while the loop
was still polling. -/
inductive MonitorOutcome where
  | returned (r : BuildResult) (terminated : Bool)
  | raised (terminated : Bool)
  | pending
deriving DecidableEq, Repr

/-- Embedding of `BuildMonitor.monitor_with_progress` (lines 388-493) as a step function
over the oracle trace.  Per loop iteration, in source order: the timeout check
(`elapsed > timeout`) terminates the process and returns the timeout result;
the phase query may raise (propagating with no cleanup, since the `try` has no
`finally` and only catches `KeyboardInterrupt`); a terminal phase terminates
the process, fetches the full logs (the `logs` parameter), and returns the
complete/failure result; a `KeyboardInterrupt` is caught, terminates the
process and returns the cancelled result; otherwise the loop continues. -/
def monitorRun (timeout : Nat) (logs : List Char) : List IterOracle → MonitorOutcome
  | [] => .pending
  | o :: rest =>
    if timeout < o.elapsed then .returned (timeoutResult timeout) true
    else
      match o.phase with
      | none => .raised false
      | some ph =>
        if ph ∈ terminalPhases then
          if ph = "Complete".toList then
            .returned { success := true, image_ref := extractImageFromLogs logs,
                        phase := some ph, logs := some logs } true
          else
            .returned { success := false, phase := some ph, logs := some logs,
                        error := some (extractErrorFromLogs logs) } true
        else if o.interrupt then .returned cancelledResult true
        else monitorRun timeout logs rest

/-- The closed phase enumeration of spec section 4.3. -/
def specPhases : List (List Char) :=
  ["New".toList, "Pending".toList, "Running".toList, "Complete".toList,
   "Failed".toList, "Error".toList, "Cancelled".toList]

/-- Embedding of `BuildMonitor.get_phase` (lines 344-370), with the external command's exit
code and stdout passed in: a non-zero exit code or blank stdout yields
`"Unknown"`, otherwise the stripped stdout. -/
def get_phase (returncode : Int) (stdout : List Char) : List Char :=
  if returncode ≠ 0 then "Unknown".toList
  else if pyStrip stdout = [] then "Unknown".toList
  else pyStrip stdout

/-- The literal of the `buildconfig.build.openshift.io/(\S+)` extraction regex
of `apply_buildconfig` (line 244). -/
def bcLit : List Char := "buildconfig.build.openshift.io/".toList

/-- The literal of the `build.build.openshift.io/(\S+)` extraction regex of
`start_build` (line 278). -/
def buildLit : List Char := "build.build.openshift.io/".toList

/-- Semantics of `re.search` for a pattern of shape literal-then-group-of-nonspace: the leftmost occurrence of the literal that
is followed by at least one non-whitespace character; the group is the maximal
non-whitespace run after the literal. -/
def extractAfterLit (lit : List Char) : List Char → Option (List Char)
  | [] => none
  | s@(_ :: t) =>
    if startsWithB lit s then
      if (takeNonSpace (s.drop lit.length)).isEmpty then extractAfterLit lit t
      else some (takeNonSpace (s.drop lit.length))
    else extractAfterLit lit t

/-- Embedding of `ImageBuilder.apply_buildconfig` (lines 215-254) on the success path of the
external command: the name matched from stdout, else the name carried in the
serialized definition (`config["metadata"]["name"]`, passed here as `defName`). -/
def apply_buildconfig (stdout defName : List Char) : List Char :=
  (extractAfterLit bcLit stdout).getD defName

/-- Embedding of `ImageBuilder.start_build` (lines 256-283) on the success path: the
instance name matched from stdout, else `buildconfig_name + "-1"`. -/
def start_build (stdout bcName : List Char) : List Char :=
  (extractAfterLit buildLit stdout).getD (bcName ++ "-1".toList)

/-- Presence of a `lit(\S+)` match in `s`: the literal occurs followed by a
non-whitespace character. -/
def LitMatch (lit s : List Char) : Prop :=
  ∃ a c b, s = a ++ lit ++ c :: b ∧ pyIsSpace c = false

/-! Remaining definitions used by the theorems below. -/

/-- A per-iteration predicate for a loop iteration that keeps polling: elapsed
time within the timeout, the phase query succeeded with a non-terminal phase,
and no interrupt arrived. -/
def okIter (t : Nat) (j : IterOracle) : Bool :=
  decide (j.elapsed ≤ t) && !j.interrupt &&
    (match j.phase with
     | none => false
     | some p => !(decide (p ∈ terminalPhases)))

/-- Inverse of the continuation-line rendering of `contLines`: drop the
four-space indent and, when present, the trailing backslash continuation. -/
def unrender (l : List Char) : List Char :=
  let r := l.drop 4
  if r.reverse.take 2 = ['\\', ' '] then (r.reverse.drop 2).reverse else r

/-- A template document without the start marker (for claims about the
missing-marker behavior). -/
def noMarkerDoc : List Char := "FROM base\nRUN echo hi".toList

/-- A minimal template document that consists of exactly the marker line. -/
def markerDoc : List Char := "# Install transformers and related libraries".toList

/-- Requirements-file contents with leading whitespace and a trailing newline. -/
def wsReq : List Char := "  a\n".toList

/-- A log text containing the disk-space pattern followed by a later network
pattern ("timeout"). -/
def diskLogs : List Char := "xx no space left yy timeout".toList

/-- The log line of the spec's package-not-found scenario. -/
def pkgLogs : List Char :=
  "ERROR: Could not find a version that satisfies the requirement foo-pkg".toList

/-- A failing build's log: a noise line followed by an explicit error line. -/
def failLogs : List Char := "boom\nERROR: pip failed".toList

/-- The `BuildResult` the monitor produces when it observes phase `Failed`
with full logs `failLogs`. -/
def failedResult : BuildResult :=
  { success := false, phase := some "Failed".toList, logs := some failLogs,
    error := some (extractErrorFromLogs failLogs) }
theorem startsWithB_iff (pat s : List Char) :
    startsWithB pat s = true ↔ ∃ t, s = pat ++ t := by
  induction pat generalizing s with
  | nil => simp [startsWithB]
  | cons c p ih =>
    cases s with
    | nil => simp [startsWithB]
    | cons d t =>
      simp only [startsWithB, Bool.and_eq_true, beq_iff_eq, ih]
      constructor
      · rintro ⟨rfl, u, rfl⟩; exact ⟨u, rfl⟩
      · rintro ⟨u, h⟩
        cases h
        exact ⟨rfl, u, rfl⟩

theorem containsSubB_iff (pat s : List Char) :
    containsSubB pat s = true ↔ ∃ a b, s = a ++ pat ++ b := by
  induction s with
  | nil =>
    simp only [containsSubB, startsWithB_iff]
    constructor
    · rintro ⟨t, h⟩
      exact ⟨[], t, by simpa using h⟩
    · rintro ⟨a, b, h⟩
      obtain ⟨ha, hp, hb⟩ : a = [] ∧ pat = [] ∧ b = [] := by
        simpa using h.symm
      exact ⟨[], by simp [hp]⟩
  | cons c t ih =>
    simp only [containsSubB, Bool.or_eq_true, startsWithB_iff, ih]
    constructor
    · rintro (⟨u, h⟩ | ⟨a, b, rfl⟩)
      · exact ⟨[], u, by simpa using h⟩
      · exact ⟨c :: a, b, by simp⟩
    · rintro ⟨a, b, h⟩
      cases a with
      | nil => exact Or.inl ⟨b, by simpa using h⟩
      | cons x xs =>
        simp only [List.cons_append, List.cons.injEq] at h
        exact Or.inr ⟨xs, b, h.2⟩

theorem splitOnChar_ne_nil (sep : Char) (s : List Char) : splitOnChar sep s ≠ [] := by
  cases s with
  | nil => simp [splitOnChar]
  | cons c cs =>
    simp only [splitOnChar]
    split
    · simp
    · split <;> simp

theorem joinWithChar_splitOnChar (sep : Char) (s : List Char) :
    joinWithChar sep (splitOnChar sep s) = s := by
  induction s with
  | nil => simp [splitOnChar, joinWithChar]
  | cons c cs ih =>
    simp only [splitOnChar]
    split
    · rename_i hc
      subst hc
      cases h : splitOnChar c cs with
      | nil => exact absurd h (splitOnChar_ne_nil c cs)
      | cons m ms =>
        rw [h] at ih
        simp [joinWithChar, ih]
    · cases h : splitOnChar sep cs with
      | nil => exact absurd h (splitOnChar_ne_nil sep cs)
      | cons m ms =>
        rw [h] at ih
        cases ms with
        | nil => simpa [joinWithChar] using congrArg (c :: ·) ih
        | cons m' ms' => simpa [joinWithChar] using congrArg (c :: ·) ih


theorem startsWithB_self_append (p t : List Char) : startsWithB p (p ++ t) = true :=
  (startsWithB_iff p (p ++ t)).mpr ⟨t, rfl⟩

theorem containsSubB_ne_nil {pat s : List Char} (hp : pat ≠ [])
    (h : containsSubB pat s = true) : s ≠ [] := by
  obtain ⟨a, b, rfl⟩ := (containsSubB_iff pat s).mp h
  intro hnil
  have : a = [] ∧ pat = [] ∧ b = [] := by simpa using hnil
  exact hp this.2.1

theorem space_toLower {c : Char} (h : pyIsSpace c = true) : Char.toLower c = c := by
  simp only [pyIsSpace, Bool.or_eq_true, beq_iff_eq] at h
  rcases h with ((((rfl | rfl) | rfl) | rfl) | rfl) | rfl <;> decide

theorem strip_eq_nil_allSpace {l : List Char} (h : pyStrip l = []) :
    ∀ c ∈ l, pyIsSpace c = true := by
  unfold pyStrip at h
  rw [List.reverse_eq_nil_iff, List.dropWhile_eq_nil_iff] at h
  intro c hc
  have hsplit := List.takeWhile_append_dropWhile pyIsSpace l
  rw [← hsplit] at hc
  rcases List.mem_append.mp hc with hk | hd
  · exact List.mem_takeWhile_imp hk
  · exact h c (List.mem_reverse.mpr hd)

theorem strip_ne_of_nonspace {l : List Char} {c : Char} (hc : c ∈ l)
    (hcs : pyIsSpace c = false) : pyStrip l ≠ [] := by
  intro h
  rw [strip_eq_nil_allSpace h c hc] at hcs
  exact Bool.true_eq_false.mp hcs

theorem strip_ne_of_lower_nonspace {l : List Char} {c : Char} (hc : c ∈ toLowerStr l)
    (hcs : pyIsSpace c = false) : pyStrip l ≠ [] := by
  obtain ⟨d, hd, hdc⟩ := List.mem_map.mp hc
  by_cases hds : pyIsSpace d = true
  · rw [space_toLower hds] at hdc
    subst hdc
    rw [hds] at hcs
    exact absurd hcs (by simp)
  · exact strip_ne_of_nonspace hd (by simpa using hds)

theorem find?_decomp {α : Type} (p : α → Bool) :
    ∀ (l : List α) (x : α), l.find? p = some x →
      ∃ pre post, l = pre ++ x :: post ∧ p x = true ∧ ∀ y ∈ pre, p y = false := by
  intro l
  induction l with
  | nil => intro x h; simp [List.find?] at h
  | cons a t ih =>
    intro x h
    by_cases ha : p a = true
    · rw [List.find?_cons_of_pos t ha] at h
      cases h
      exact ⟨[], t, rfl, ha, by simp⟩
    · rw [List.find?_cons_of_neg t ha] at h
      obtain ⟨pre, post, rfl, hx, hclean⟩ := ih x h
      refine ⟨a :: pre, post, rfl, hx, ?_⟩
      intro y hy
      rcases List.mem_cons.mp hy with rfl | hy'
      · exact Bool.not_eq_true _ ▸ (by simpa using ha)
      · exact hclean y hy'

theorem find?_rev_decomp {α : Type} (p : α → Bool) (l : List α) (x : α)
    (h : l.reverse.find? p = some x) :
    ∃ pre post, l = pre ++ x :: post ∧ p x = true ∧ ∀ y ∈ post, p y = false := by
  obtain ⟨pre, post, hsplit, hx, hclean⟩ := find?_decomp p l.reverse x h
  refine ⟨post.reverse, pre.reverse, ?_, hx, ?_⟩
  · have := congrArg List.reverse hsplit
    simpa [List.reverse_append] using this
  · intro y hy
    exact hclean y (List.mem_reverse.mp hy)

theorem containsSubB_toLower {pat s : List Char} (h : containsSubB pat s = true)
    (hfix : toLowerStr pat = pat) : containsSubB pat (toLowerStr s) = true := by
  obtain ⟨a, b, rfl⟩ := (containsSubB_iff pat s).mp h
  refine (containsSubB_iff pat (toLowerStr (a ++ pat ++ b))).mpr
    ⟨toLowerStr a, toLowerStr b, ?_⟩
  simp [toLowerStr] at hfix ⊢
  simp [hfix]

theorem injectLoop_no_marker (pkgs : List (List Char)) (req : Option (List Char)) :
    ∀ lines, (∀ l ∈ lines, containsSubB startMarker l = false) →
      injectLoop pkgs req lines false = lines := by
  intro lines
  induction lines with
  | nil => intro _; rfl
  | cons a t ih =>
    intro h
    have ha := h a (by simp)
    have ht := ih (fun l hl => h l (by simp [hl]))
    simp [injectLoop, ha, ht]

/-- C2, amended: when the package-installation marker is not found in the
template, `_inject_custom_packages` silently returns the document unchanged —
it raises no error and performs no replacement (the original claim, that the
generator raises, is refuted by `inject_marker_missing_silent_noop`). -/
theorem inject_marker_missing_unchanged (d : List Char) (pkgs : List (List Char))
    (req : Option (List Char))
    (h : ∀ l ∈ splitNl d, containsSubB startMarker l = false) :
    injectCustomPackages d pkgs req = d := by
  unfold injectCustomPackages injectLines joinNl
  rw [injectLoop_no_marker pkgs req (splitNl d) h]
  exact joinWithChar_splitOnChar '\n' d

/-- Witness for `inject_marker_missing_unchanged` at a concrete marker-free
template and package list. -/
theorem inject_marker_missing_unchanged_witness :
    (∀ l ∈ splitNl noMarkerDoc, containsSubB startMarker l = false) ∧
    injectCustomPackages noMarkerDoc ["foo".toList] none = noMarkerDoc :=
  ⟨by decide, inject_marker_missing_unchanged noMarkerDoc ["foo".toList] none (by decide)⟩

/-- C2 counterexample: on a template without the marker, the generator does
not fail — it returns the definition with the package-installation region
unreplaced (the output equals the input and the requested package `foo` is
nowhere in it), refuting the claim that an error is raised. -/
theorem inject_marker_missing_silent_noop :
    injectCustomPackages noMarkerDoc ["foo".toList] none = noMarkerDoc ∧
    containsSubB "foo".toList (injectCustomPackages noMarkerDoc ["foo".toList] none) = false := by
  decide

theorem injectLoop_block_infix (pkgs : List (List Char)) (req : Option (List Char)) :
    ∀ lines skip, (∃ l ∈ lines, containsSubB startMarker l = true) →
      ∃ a b, injectLoop pkgs req lines skip = a ++ customBlock pkgs req ++ b := by
  intro lines
  induction lines with
  | nil => rintro skip ⟨l, hl, _⟩; simp at hl
  | cons x t ih =>
    rintro skip ⟨l, hl, hm⟩
    by_cases hx : containsSubB startMarker x = true
    · exact ⟨[], injectLoop pkgs req t true, by simp [injectLoop, hx]⟩
    · have hl' : l ∈ t := by
        rcases List.mem_cons.mp hl with rfl | h
        · exact absurd hm hx
        · exact h
      obtain ⟨a, b, hab⟩ := ih (skip && !endMarkerHit x) ⟨l, hl', hm⟩
      by_cases hs : (skip && !endMarkerHit x) = true
      · rw [hs] at hab
        exact ⟨a, b, by simp [injectLoop, hx, hs, hab, List.append_assoc]⟩
      · rw [Bool.not_eq_true] at hs
        rw [hs] at hab
        refine ⟨x :: a, b, ?_⟩
        simp [injectLoop, hx, hs, hab, List.append_assoc]

/-- C3, amended: for every requirements-file contents, the rendered definition
embeds the contents with leading and trailing whitespace stripped (Python
`str.strip()` at line 164 of the source) as the single element of the heredoc
block between the `EOF` delimiters; interior characters are preserved exactly.
The original "entire contents verbatim" claim fails at the stripped edges, see
`requirements_not_embedded_verbatim`. -/
theorem requirements_embedded_stripped (d rc : List Char) (pkgs : List (List Char))
    (h : ∃ l ∈ splitNl d, containsSubB startMarker l = true) :
    ∃ a b, injectLines d pkgs (some rc) =
      a ++ ([reqHeredocOpen, pyStrip rc, "EOF".toList] : List (List Char)) ++ b := by
  obtain ⟨a, b, hab⟩ := injectLoop_block_infix pkgs (some rc) (splitNl d) false h
  refine ⟨a ++ ["# Custom package installation (user-specified)".toList, [],
    "# Install packages from requirements.txt".toList],
    [([] : List Char), reqRunLine, []] ++ b, ?_⟩
  unfold injectLines
  rw [hab]
  simp [customBlock, List.append_assoc]

/-- Witness for `requirements_embedded_stripped` at a concrete template and
requirements contents. -/
theorem requirements_embedded_stripped_witness :
    (∃ l ∈ splitNl markerDoc, containsSubB startMarker l = true) ∧
    ∃ a b, injectLines markerDoc [] (some wsReq) =
      a ++ ([reqHeredocOpen, pyStrip wsReq, "EOF".toList] : List (List Char)) ++ b :=
  ⟨by decide, requirements_embedded_stripped markerDoc wsReq [] (by decide)⟩

/-- C3 counterexample: requirements contents `"  a\n"` (leading whitespace and
trailing newline) do not occur anywhere in the rendered definition — only the
stripped form `"a"` is embedded — so the file contents are not embedded
verbatim and characters are altered at the edges. -/
theorem requirements_not_embedded_verbatim :
    containsSubB wsReq (injectCustomPackages markerDoc [] (some wsReq)) = false := by
  decide

theorem isInstall_space_false (r : List Char) : isInstallLine (' ' :: r) = false := by
  show startsWithB "RUN pip install".toList (' ' :: r) = false
  have h : "RUN pip install".toList = 'R' :: "UN pip install".toList := rfl
  rw [h]
  simp [startsWithB]

theorem installPfxLine_isInstall (pkgs : List (List Char)) :
    isInstallLine (installPfxLine pkgs) = true := by
  have h : installPfxLine pkgs = "RUN pip install".toList ++
      (" --no-cache-dir --constraint /tmp/constraints.txt ".toList ++
        joinWithChar ' ' pkgs) := by
    unfold installPfxLine
    rw [← List.append_assoc]
    congr 1
  rw [h]
  exact startsWithB_self_append _ _

theorem contLines_not_install : ∀ ps : List (List Char), ∀ l ∈ contLines ps,
    isInstallLine l = false := by
  intro ps
  induction ps with
  | nil => intro l hl; simp [contLines] at hl
  | cons p t ih =>
    intro l hl
    cases t with
    | nil =>
      simp [contLines] at hl
      subst hl
      exact isInstall_space_false _
    | cons q rest =>
      rw [contLines] at hl
      rcases List.mem_cons.mp hl with rfl | hl'
      · show isInstallLine (' ' :: (("   ".toList ++ p) ++ " \\".toList)) = false
        exact isInstall_space_false _
      · exact ih l hl'

theorem contLines_length : ∀ ps : List (List Char), (contLines ps).length = ps.length := by
  intro ps
  induction ps with
  | nil => rfl
  | cons p t ih =>
    cases t with
    | nil => rfl
    | cons q rest => simp [contLines] at ih ⊢; omega

theorem customBlock_none_le3 (pkgs : List (List Char)) (hne : pkgs ≠ [])
    (h3 : pkgs.length ≤ 3) :
    customBlock pkgs none =
      (["# Custom package installation (user-specified)".toList, [],
        "# Install user-specified packages".toList] : List (List Char)) ++
        [installPfxLine pkgs] ++ [[]] := by
  cases pkgs with
  | nil => exact absurd rfl hne
  | cons x xs =>
    have h2 : xs.length ≤ 2 := by simpa using h3
    simp [customBlock, h2]

theorem customBlock_none_gt3 (pkgs : List (List Char)) (h3 : 3 < pkgs.length) :
    customBlock pkgs none =
      (["# Custom package installation (user-specified)".toList, [],
        "# Install user-specified packages".toList, contHeader] : List (List Char)) ++
        contLines pkgs ++ [[]] := by
  cases pkgs with
  | nil => simp at h3
  | cons x xs =>
    have h2 : ¬ xs.length ≤ 2 := by simp at h3 ⊢; omega
    simp [customBlock, h2]

theorem customBlock_countP_one (pkgs : List (List Char)) (hne : pkgs ≠ []) :
    (customBlock pkgs none).countP isInstallLine = 1 := by
  by_cases h3 : pkgs.length ≤ 3
  · rw [customBlock_none_le3 pkgs hne h3]
    rw [List.countP_append, List.countP_append]
    have ha : (["# Custom package installation (user-specified)".toList, [],
        "# Install user-specified packages".toList] : List (List Char)).countP
          isInstallLine = 0 := by decide
    have hb : ([[]] : List (List Char)).countP isInstallLine = 0 := by decide
    rw [ha, hb]
    simp [List.countP_cons, installPfxLine_isInstall pkgs]
  · rw [customBlock_none_gt3 pkgs (by omega)]
    rw [List.countP_append, List.countP_append]
    have ha : (["# Custom package installation (user-specified)".toList, [],
        "# Install user-specified packages".toList, contHeader] : List (List Char)).countP
          isInstallLine = 1 := by decide
    have hb : ([[]] : List (List Char)).countP isInstallLine = 0 := by decide
    have hz : (contLines pkgs).countP isInstallLine = 0 :=
      List.countP_eq_zero.mpr (fun l hl => by simp [contLines_not_install pkgs l hl])
    rw [ha, hb, hz]

theorem injectLoop_countP (pkgs : List (List Char)) (req : Option (List Char)) :
    ∀ lines skip, (∀ l ∈ lines, isInstallLine l = false) →
      (injectLoop pkgs req lines skip).countP isInstallLine =
        (lines.countP (fun l => containsSubB startMarker l)) *
          ((customBlock pkgs req).countP isInstallLine) := by
  intro lines
  induction lines with
  | nil => intro skip _; simp [injectLoop]
  | cons x t ih =>
    intro skip h
    have hx0 := h x (by simp)
    have ht : ∀ l ∈ t, isInstallLine l = false := fun l hl => h l (by simp [hl])
    by_cases hx : containsSubB startMarker x = true
    · rw [injectLoop]
      rw [if_pos hx]
      rw [List.countP_append, ih true ht, List.countP_cons, hx]
      simp
      ring
    · rw [injectLoop]
      rw [if_neg (by simp [hx])]
      by_cases hs : (skip && !endMarkerHit x) = true
      · simp only [hs]
        rw [if_pos trivial]
        rw [ih true ht, List.countP_cons]
        simp [hx]
      · rw [Bool.not_eq_true] at hs
        simp only [hs]
        rw [if_neg (by simp)]
        rw [List.countP_cons, ih false ht, List.countP_cons]
        simp [hx0, hx]

theorem splitOnChar_no_sep {sep : Char} : ∀ w : List Char, sep ∉ w →
    splitOnChar sep w = [w] := by
  intro w
  induction w with
  | nil => intro _; rfl
  | cons c cs ih =>
    intro h
    have hc : ¬ c = sep := by
      rintro rfl
      exact h (List.mem_cons_self c cs)
    have ht := ih (fun hm => h (List.mem_cons_of_mem c hm))
    simp [splitOnChar, hc, ht]

theorem splitOnChar_append_sep {sep : Char} :
    ∀ (w r : List Char), sep ∉ w →
      splitOnChar sep (w ++ sep :: r) = w :: splitOnChar sep r := by
  intro w
  induction w with
  | nil => intro r _; simp [splitOnChar]
  | cons c cs ih =>
    intro r h
    have hc : ¬ c = sep := by
      rintro rfl
      exact h (List.mem_cons_self c cs)
    have ht := ih r (fun hm => h (List.mem_cons_of_mem c hm))
    simp [splitOnChar, hc, ht]

theorem splitOnChar_joinWithChar (sep : Char) :
    ∀ ps : List (List Char), ps ≠ [] → (∀ p ∈ ps, sep ∉ p) →
      splitOnChar sep (joinWithChar sep ps) = ps := by
  intro ps
  induction ps with
  | nil => intro h _; exact absurd rfl h
  | cons p t ih =>
    intro _ h
    cases t with
    | nil => simpa [joinWithChar] using splitOnChar_no_sep p (h p (by simp))
    | cons q rest =>
      have ht := ih (by simp) (fun x hx => h x (by simp [hx]))
      rw [joinWithChar]
      rw [splitOnChar_append_sep p _ (h p (by simp))]
      rw [ht]

theorem unrender_plain {p : List Char} (hp : ' ' ∉ p) :
    unrender ("    ".toList ++ p) = p := by
  unfold unrender
  have hdrop : ("    ".toList ++ p).drop 4 = p := by
    have h := List.drop_left "    ".toList p
    simpa using h
  rw [hdrop]
  rw [if_neg ?hne]
  case hne =>
    intro hcontra
    have hmem : ' ' ∈ p.reverse := by
      cases hrev : p.reverse with
      | nil => rw [hrev] at hcontra; simp at hcontra
      | cons a t =>
        cases t with
        | nil => rw [hrev] at hcontra; simp at hcontra
        | cons b t2 =>
          rw [hrev] at hcontra
          simp at hcontra
          simp [hcontra.2]
    exact hp (List.mem_reverse.mp hmem)

theorem unrender_backslash {p : List Char} :
    unrender ("    ".toList ++ p ++ " \\".toList) = p := by
  unfold unrender
  have hdrop : ("    ".toList ++ p ++ " \\".toList).drop 4 = p ++ " \\".toList := by
    rw [List.append_assoc]
    have h := List.drop_left "    ".toList (p ++ " \\".toList)
    simpa using h
  rw [hdrop]
  have hrev : (p ++ " \\".toList).reverse = '\\' :: ' ' :: p.reverse := by
    simp [List.reverse_append]
  simp [hrev]

theorem contLines_unrender : ∀ ps : List (List Char), (∀ p ∈ ps, ' ' ∉ p) →
    (contLines ps).map unrender = ps := by
  intro ps
  induction ps with
  | nil => intro _; rfl
  | cons p t ih =>
    intro h
    cases t with
    | nil =>
      rw [contLines, List.map_cons, List.map_nil, unrender_plain (h p (by simp))]
    | cons q rest =>
      have ht := ih (fun x hx => h x (by simp [hx]))
      rw [contLines, List.map_cons, ht, unrender_backslash]

/-- C4, amended: for every non-empty list of well-formed package names (each
non-empty and space-free) and every template whose line list contains the
marker exactly once and no install directive of its own, the generated line
list contains exactly one install directive; for at most 3 packages it is the
single line `installPfxLine pkgs`, whose space-joined tail splits back into
exactly the input list in order; for more than 3 packages the directive is the
continuation header followed by the block `contLines pkgs`, one line per
package, which un-renders to exactly the input list in order.  The original
claim fails for the empty package list, see `package_render_empty_list`. -/
theorem package_render_shape (pkgs : List (List Char)) (hne : pkgs ≠ [])
    (hwf : ∀ p ∈ pkgs, p ≠ [] ∧ ' ' ∉ p) (d : List Char)
    (hmark : (splitNl d).countP (fun l => containsSubB startMarker l) = 1)
    (hclean : ∀ l ∈ splitNl d, isInstallLine l = false) :
    (injectLines d pkgs none).countP isInstallLine = 1 ∧
    (pkgs.length ≤ 3 →
      installPfxLine pkgs ∈ injectLines d pkgs none ∧
      splitOnChar ' ' (joinWithChar ' ' pkgs) = pkgs) ∧
    (3 < pkgs.length →
      contHeader ∈ injectLines d pkgs none ∧
      (∃ a b, injectLines d pkgs none = a ++ contLines pkgs ++ b) ∧
      (contLines pkgs).map unrender = pkgs ∧
      (contLines pkgs).length = pkgs.length) := by
  have hex : ∃ l ∈ splitNl d, containsSubB startMarker l = true := by
    have hpos : 0 < (splitNl d).countP (fun l => containsSubB startMarker l) := by omega
    simpa using List.countP_pos_iff.mp hpos
  obtain ⟨a, b, hab⟩ := injectLoop_block_infix pkgs none (splitNl d) false hex
  refine ⟨?_, ?_, ?_⟩
  · show (injectLoop pkgs none (splitNl d) false).countP isInstallLine = 1
    rw [injectLoop_countP pkgs none (splitNl d) false hclean, hmark,
      customBlock_countP_one pkgs hne]
  · intro h3
    constructor
    · have hxblk : installPfxLine pkgs ∈ customBlock pkgs none := by
        rw [customBlock_none_le3 pkgs hne h3]
        simp
      show installPfxLine pkgs ∈ injectLoop pkgs none (splitNl d) false
      rw [hab]
      exact List.mem_append.mpr (Or.inl (List.mem_append.mpr (Or.inr hxblk)))
    · exact splitOnChar_joinWithChar ' ' pkgs hne (fun p hp => (hwf p hp).2)
  · intro h3
    refine ⟨?_, ?_, contLines_unrender pkgs (fun p hp => (hwf p hp).2),
      contLines_length pkgs⟩
    · have hxblk : contHeader ∈ customBlock pkgs none := by
        rw [customBlock_none_gt3 pkgs h3]
        simp
      show contHeader ∈ injectLoop pkgs none (splitNl d) false
      rw [hab]
      exact List.mem_append.mpr (Or.inl (List.mem_append.mpr (Or.inr hxblk)))
    · refine ⟨a ++ ["# Custom package installation (user-specified)".toList, [],
        "# Install user-specified packages".toList, contHeader], [[]] ++ b, ?_⟩
      show injectLoop pkgs none (splitNl d) false = _
      rw [hab, customBlock_none_gt3 pkgs h3]
      simp [List.append_assoc]

/-- Witness for `package_render_shape` at a four-package list and the minimal
marker template. -/
theorem package_render_shape_witness :
    (injectLines markerDoc
        ["aa".toList, "bb".toList, "cc".toList, "dd".toList] none).countP
      isInstallLine = 1 ∧
    (( ["aa".toList, "bb".toList, "cc".toList, "dd".toList] : List (List Char)).length ≤ 3 →
      installPfxLine ["aa".toList, "bb".toList, "cc".toList, "dd".toList] ∈
        injectLines markerDoc ["aa".toList, "bb".toList, "cc".toList, "dd".toList] none ∧
      splitOnChar ' '
        (joinWithChar ' ' ["aa".toList, "bb".toList, "cc".toList, "dd".toList]) =
        ["aa".toList, "bb".toList, "cc".toList, "dd".toList]) ∧
    (3 < (["aa".toList, "bb".toList, "cc".toList, "dd".toList] : List (List Char)).length →
      contHeader ∈
        injectLines markerDoc ["aa".toList, "bb".toList, "cc".toList, "dd".toList] none ∧
      (∃ a b, injectLines markerDoc
          ["aa".toList, "bb".toList, "cc".toList, "dd".toList] none =
          a ++ contLines ["aa".toList, "bb".toList, "cc".toList, "dd".toList] ++ b) ∧
      (contLines ["aa".toList, "bb".toList, "cc".toList, "dd".toList]).map unrender =
        ["aa".toList, "bb".toList, "cc".toList, "dd".toList] ∧
      (contLines ["aa".toList, "bb".toList, "cc".toList, "dd".toList]).length =
        (["aa".toList, "bb".toList, "cc".toList, "dd".toList] : List (List Char)).length) :=
  package_render_shape ["aa".toList, "bb".toList, "cc".toList, "dd".toList]
    (by decide) (by decide) markerDoc (by decide) (by decide)

/-- C4 counterexample: for the empty package list the claim fails — "exactly
one install directive" does not hold, because `generate_buildconfig` skips the
injection entirely (line 128) and the rendered definition is the template
unchanged, which here contains no install directive at all. -/
theorem package_render_empty_list :
    applyPackageInjection markerDoc [] none = markerDoc ∧
    (splitNl (applyPackageInjection markerDoc [] none)).countP isInstallLine ≠ 1 := by
  decide

theorem firstMatch_table (s : List Char) :
    firstMatch ERROR_PATTERNS s =
      if anyPat diskPatterns s then some "disk_space".toList
      else if anyPat networkPatterns s then some "network".toList
      else if anyPat packagePatterns s then some "package_not_found".toList
      else if anyPat dependencyPatterns s then some "dependency_conflict".toList
      else none := rfl

theorem analyze_failure_cases (logs phase : List Char) (hne : logs ≠ []) :
    analyze_failure logs phase =
      (if anyPat diskPatterns (toLowerStr logs) then
        createAnalysis "disk_space".toList logs
      else if anyPat networkPatterns (toLowerStr logs) then
        createAnalysis "network".toList logs
      else if anyPat packagePatterns (toLowerStr logs) then
        createAnalysis "package_not_found".toList logs
      else if anyPat dependencyPatterns (toLowerStr logs) then
        createAnalysis "dependency_conflict".toList logs
      else ⟨"unknown".toList, "Build failed for unknown reason".toList,
        "Review build logs and try again or use pre-built image".toList, true⟩) := by
  unfold analyze_failure
  rw [if_neg hne, firstMatch_table]
  by_cases h1 : anyPat diskPatterns (toLowerStr logs) = true
  · simp [h1]
  · rw [Bool.not_eq_true] at h1
    by_cases h2 : anyPat networkPatterns (toLowerStr logs) = true
    · simp [h1, h2]
    · rw [Bool.not_eq_true] at h2
      by_cases h3 : anyPat packagePatterns (toLowerStr logs) = true
      · simp [h1, h2, h3]
      · rw [Bool.not_eq_true] at h3
        by_cases h4 : anyPat dependencyPatterns (toLowerStr logs) = true
        · simp [h1, h2, h3, h4]
        · rw [Bool.not_eq_true] at h4
          simp [h1, h2, h3, h4]

/-- C6: `analyze_failure` is a pure function of `(logs, phase)`; the four
categories are tried in the fixed table order `disk_space`, `network`,
`package_not_found`, `dependency_conflict`, first match winning, over the
lowercased log text; a log text containing `"no space left"` is always
classified `disk_space` with `can_retry = false`, whatever else matches; no
category matching (or empty logs) yields the retryable `unknown` analyses. -/
theorem analyze_failure_priority (logs phase : List Char) :
    (containsSubB "no space left".toList logs = true →
      analyze_failure logs phase =
        ⟨"disk_space".toList, "Build failed due to insufficient disk space".toList,
         "Contact cluster administrator to increase build storage quota".toList,
         false⟩) ∧
    (logs ≠ [] → anyPat diskPatterns (toLowerStr logs) = true →
      analyze_failure logs phase = createAnalysis "disk_space".toList logs) ∧
    (logs ≠ [] → anyPat diskPatterns (toLowerStr logs) = false →
      anyPat networkPatterns (toLowerStr logs) = true →
      analyze_failure logs phase = createAnalysis "network".toList logs) ∧
    (logs ≠ [] → anyPat diskPatterns (toLowerStr logs) = false →
      anyPat networkPatterns (toLowerStr logs) = false →
      anyPat packagePatterns (toLowerStr logs) = true →
      analyze_failure logs phase = createAnalysis "package_not_found".toList logs) ∧
    (logs ≠ [] → anyPat diskPatterns (toLowerStr logs) = false →
      anyPat networkPatterns (toLowerStr logs) = false →
      anyPat packagePatterns (toLowerStr logs) = false →
      anyPat dependencyPatterns (toLowerStr logs) = true →
      analyze_failure logs phase = createAnalysis "dependency_conflict".toList logs) ∧
    (logs ≠ [] → anyPat diskPatterns (toLowerStr logs) = false →
      anyPat networkPatterns (toLowerStr logs) = false →
      anyPat packagePatterns (toLowerStr logs) = false →
      anyPat dependencyPatterns (toLowerStr logs) = false →
      analyze_failure logs phase = ⟨"unknown".toList,
        "Build failed for unknown reason".toList,
        "Review build logs and try again or use pre-built image".toList, true⟩) ∧
    (logs = [] → analyze_failure logs phase = ⟨"unknown".toList,
      "Build failed with phase: ".toList ++ phase,
      "Check cluster resources and try again".toList, true⟩) ∧
    (∀ logs' phase', logs = logs' → phase = phase' →
      analyze_failure logs phase = analyze_failure logs' phase') := by
  refine ⟨?_, ?_, ?_, ?_, ?_, ?_, ?_, ?_⟩
  · intro hc
    have hne : logs ≠ [] := containsSubB_ne_nil (by decide) hc
    have hlow : containsSubB "no space left".toList (toLowerStr logs) = true :=
      containsSubB_toLower hc (by decide)
    have hd : anyPat diskPatterns (toLowerStr logs) = true := by
      simp only [anyPat, diskPatterns, List.any_cons, List.any_nil,
        Pat.matchesIn, Bool.or_eq_true]
      exact Or.inl hlow
    rw [analyze_failure_cases logs phase hne, if_pos hd]
    simp [createAnalysis]
  · intro hne hd
    rw [analyze_failure_cases logs phase hne, if_pos hd]
  · intro hne h1 h2
    rw [analyze_failure_cases logs phase hne, if_neg (by simp [h1]), if_pos h2]
  · intro hne h1 h2 h3
    rw [analyze_failure_cases logs phase hne, if_neg (by simp [h1]),
      if_neg (by simp [h2]), if_pos h3]
  · intro hne h1 h2 h3 h4
    rw [analyze_failure_cases logs phase hne, if_neg (by simp [h1]),
      if_neg (by simp [h2]), if_neg (by simp [h3]), if_pos h4]
  · intro hne h1 h2 h3 h4
    rw [analyze_failure_cases logs phase hne, if_neg (by simp [h1]),
      if_neg (by simp [h2]), if_neg (by simp [h3]), if_neg (by simp [h4])]
  · intro hz
    unfold analyze_failure
    rw [if_pos hz]
  · intro logs' phase' h1 h2
    rw [h1, h2]

/-- Witness for `analyze_failure_priority`: a log text containing
`"no space left"` followed by a later `"timeout"` (a network pattern) is still
classified `disk_space`, non-retryable. -/
theorem analyze_failure_priority_witness :
    containsSubB "no space left".toList diskLogs = true ∧
    analyze_failure diskLogs "Failed".toList =
      ⟨"disk_space".toList, "Build failed due to insufficient disk space".toList,
       "Contact cluster administrator to increase build storage quota".toList,
       false⟩ :=
  ⟨by decide, (analyze_failure_priority diskLogs "Failed".toList).1 (by decide)⟩

/-- C8 counterexample: on the spec's scenario log line the classifier does
return `package_not_found` with `can_retry = true`, but the extracted package
hint references neither `foo-pkg` nor the documented fallback
`"unknown package"` — the best-effort regex captures the word `that` instead. -/
theorem package_hint_not_foo_pkg :
    (analyze_failure pkgLogs "Failed".toList).error_type = "package_not_found".toList ∧
    (analyze_failure pkgLogs "Failed".toList).can_retry = true ∧
    containsSubB "foo-pkg".toList (analyze_failure pkgLogs "Failed".toList).message
      = false ∧
    containsSubB "unknown package".toList
      (analyze_failure pkgLogs "Failed".toList).message = false := by
  decide

/-- C8, amended: on the scenario log line `classify` returns error type
`package_not_found` with `can_retry = true`, and the message carries the
best-effort extraction of the regex of `_create_analysis`, which here captures
the word `that` (the first non-space token after the matched keyword
`version`), not `foo-pkg` and not the `"unknown package"` fallback. -/
theorem package_hint_extraction :
    analyze_failure pkgLogs "Failed".toList =
      ⟨"package_not_found".toList, "Package not found: that".toList,
       "Check package name spelling and version requirements".toList, true⟩ := by
  decide

/-- C1, amended: whenever `monitor_with_progress` returns a `BuildResult` — on
a terminal phase, on timeout, and on `KeyboardInterrupt` cancellation — the
log-tail process has been terminated before the result is constructed.  The
original claim also covered unexpected exceptions, but the `try` block has no
`finally` and only catches `KeyboardInterrupt`, so an unexpected exception
during the loop propagates with the process still running, see
`monitor_exception_skips_terminate`. -/
theorem monitor_terminates_on_return (timeout : Nat) (logs : List Char) :
    ∀ (tr : List IterOracle) (r : BuildResult) (b : Bool),
      monitorRun timeout logs tr = .returned r b → b = true := by
  intro tr
  induction tr with
  | nil => intro r b h; simp [monitorRun] at h
  | cons o rest ih =>
    intro r b h
    rw [monitorRun] at h
    split at h
    · cases h; rfl
    · split at h
      · simp at h
      · split at h
        · split at h
          · cases h; rfl
          · cases h; rfl
        · split at h
          · cases h; rfl
          · exact ih r b h

/-- Witness for `monitor_terminates_on_return`: a session that observes the
terminal phase `Complete` on its first poll. -/
theorem monitor_terminates_on_return_witness :
    monitorRun 1800 [] [⟨0, some "Complete".toList, false⟩] =
      .returned { success := true, image_ref := none,
                  phase := some "Complete".toList, logs := some [] } true ∧
    true = true :=
  ⟨by decide,
   monitor_terminates_on_return 1800 [] [⟨0, some "Complete".toList, false⟩]
     { success := true, image_ref := none, phase := some "Complete".toList,
       logs := some [] } true (by decide)⟩

/-- C1 counterexample: when the phase query raises an unexpected exception on
the first iteration (oracle phase `none`), the exception propagates out of
`monitor_with_progress` with the log-tail process not terminated — the
`terminated` flag of the outcome is `false` — refuting the claim that the
subprocess is terminated on every exit path. -/
theorem monitor_exception_skips_terminate :
    monitorRun 1800 [] [⟨0, none, false⟩] = .raised false := by
  decide

/-- C5: if every iteration before some point keeps polling (within the
timeout, non-terminal phase, no interrupt) and that iteration's elapsed
reading exceeds the timeout, the monitor terminates the log-tail process and
returns `BuildResult` with `success = false` and `phase = "Timeout"`.  The
conclusion does not depend on that iteration's phase or interrupt oracle nor
on the rest of the trace: nothing is polled past the timeout. -/
theorem monitor_timeout_result (timeout : Nat) (logs : List Char) :
    ∀ (pre : List IterOracle) (o : IterOracle) (rest : List IterOracle),
      (∀ j ∈ pre, okIter timeout j = true) → timeout < o.elapsed →
      monitorRun timeout logs (pre ++ o :: rest) =
        .returned (timeoutResult timeout) true := by
  intro pre
  induction pre with
  | nil =>
    intro o rest _ ho
    rw [List.nil_append, monitorRun, if_pos ho]
  | cons j t ih =>
    intro o rest hpre ho
    have hj := hpre j (by simp)
    unfold okIter at hj
    rcases hph : j.phase with _ | p
    · rw [hph] at hj; simp at hj
    · rw [hph] at hj
      simp only [Bool.and_eq_true, decide_eq_true_eq, Bool.not_eq_true'] at hj
      obtain ⟨⟨h1, h2⟩, h3⟩ := hj
      have hterm : p ∉ terminalPhases := of_decide_eq_false h3
      rw [List.cons_append, monitorRun, if_neg (by omega), hph]
      simp only [hterm, h2, if_false, Bool.false_eq_true, ite_false]
      exact ih o rest (fun x hx => hpre x (by simp [hx])) ho

/-- Witness for `monitor_timeout_result`: one in-time `Running` poll followed
by an elapsed reading beyond the default 1800-second timeout. -/
theorem monitor_timeout_result_witness :
    (∀ j ∈ [(⟨0, some "Running".toList, false⟩ : IterOracle)],
      okIter 1800 j = true) ∧
    monitorRun 1800 [] ([⟨0, some "Running".toList, false⟩] ++
        (⟨1801, some "Running".toList, false⟩ : IterOracle) :: []) =
      .returned (timeoutResult 1800) true :=
  ⟨by decide,
   monitor_timeout_result 1800 [] [⟨0, some "Running".toList, false⟩]
     ⟨1801, some "Running".toList, false⟩ [] (by decide) (by decide)⟩

theorem errMarker_strip_ne {l : List Char} (h : errMarkerLine l = true) :
    pyStrip l ≠ [] := by
  unfold errMarkerLine at h
  rcases Bool.or_eq_true _ _ |>.mp h with h1 | h2
  · obtain ⟨a, b, rfl⟩ := (containsSubB_iff _ _).mp h1
    have hmem : 'E' ∈ a ++ "ERROR:".toList ++ b := by
      refine List.mem_append.mpr (Or.inl (List.mem_append.mpr (Or.inr ?_)))
      decide
    exact strip_ne_of_nonspace hmem (by decide)
  · obtain ⟨a, b, hsplit⟩ := (containsSubB_iff _ _).mp h2
    have hmem : 'e' ∈ toLowerStr l := by
      rw [hsplit]
      refine List.mem_append.mpr (Or.inl (List.mem_append.mpr (Or.inr ?_)))
      decide
    exact strip_ne_of_lower_nonspace hmem (by decide)

theorem failPhrase_strip_ne {l : List Char} (h : failPhraseLine l = true) :
    pyStrip l ≠ [] := by
  unfold failPhraseLine at h
  obtain ⟨p, hp, hmatch⟩ := List.any_eq_true.mp h
  have hall : ∀ q ∈ failPhrases, ∃ c ∈ q, pyIsSpace c = false := by decide
  obtain ⟨c, hcp, hcs⟩ := hall p hp
  obtain ⟨a, b, hsplit⟩ := (containsSubB_iff _ _).mp hmatch
  have hmem : c ∈ toLowerStr l := by
    rw [hsplit]
    exact List.mem_append.mpr (Or.inl (List.mem_append.mpr (Or.inr hcp)))
  exact strip_ne_of_lower_nonspace hmem hcs

theorem extractError_spec (logs : List Char) :
    extractErrorFromLogs logs ≠ [] ∧
    ((∃ pre l post, splitNl logs = pre ++ l :: post ∧ errMarkerLine l = true ∧
        (∀ y ∈ post, errMarkerLine y = false) ∧
        extractErrorFromLogs logs = pyStrip l) ∨
     ((∀ y ∈ splitNl logs, errMarkerLine y = false) ∧
      ∃ pre l post, splitNl logs = pre ++ l :: post ∧ failPhraseLine l = true ∧
        (∀ y ∈ post, failPhraseLine y = false) ∧
        extractErrorFromLogs logs = pyStrip l) ∨
     ((∀ y ∈ splitNl logs, errMarkerLine y = false ∧ failPhraseLine y = false) ∧
      extractErrorFromLogs logs = genericFailMsg)) := by
  unfold extractErrorFromLogs
  cases hm : (splitNl logs).reverse.find? errMarkerLine with
  | some l =>
    obtain ⟨pre, post, hsplit, hl, hclean⟩ := find?_rev_decomp errMarkerLine _ l hm
    exact ⟨errMarker_strip_ne hl, Or.inl ⟨pre, l, post, hsplit, hl, hclean, rfl⟩⟩
  | none =>
    have hnone : ∀ y ∈ splitNl logs, errMarkerLine y = false := by
      intro y hy
      have := List.find?_eq_none.mp hm y (List.mem_reverse.mpr hy)
      simpa using this
    cases hf : (splitNl logs).reverse.find? failPhraseLine with
    | some l =>
      obtain ⟨pre, post, hsplit, hl, hclean⟩ := find?_rev_decomp failPhraseLine _ l hf
      exact ⟨failPhrase_strip_ne hl,
        Or.inr (Or.inl ⟨hnone, pre, l, post, hsplit, hl, hclean, rfl⟩)⟩
    | none =>
      have hfnone : ∀ y ∈ splitNl logs, failPhraseLine y = false := by
        intro y hy
        have := List.find?_eq_none.mp hf y (List.mem_reverse.mpr hy)
        simpa using this
      exact ⟨by decide, Or.inr (Or.inr ⟨fun y hy => ⟨hnone y hy, hfnone y hy⟩, rfl⟩)⟩

/-- C7: whenever the monitor returns a result for a terminal failure phase
(`Failed`, `Error`, `Cancelled`) observed by the phase poll (`r.logs ≠ none`
separates this exit from operator cancellation, which stores no logs), the
result's error message is exactly `_extract_error_from_logs` of the fetched
logs: it is non-empty and is the stripped last line containing an explicit
error marker, else the stripped last line matching the curated failure-phrase
set, else the generic non-empty "Build failed (see logs for details)". -/
theorem monitor_failure_error_nonempty (timeout : Nat) (logs : List Char) :
    ∀ (tr : List IterOracle) (r : BuildResult) (b : Bool),
      monitorRun timeout logs tr = .returned r b →
      (∃ ph, r.phase = some ph ∧ ph ∈ failPhases) →
      r.logs ≠ none →
      r.error = some (extractErrorFromLogs logs) ∧
      extractErrorFromLogs logs ≠ [] ∧
      ((∃ pre l post, splitNl logs = pre ++ l :: post ∧ errMarkerLine l = true ∧
          (∀ y ∈ post, errMarkerLine y = false) ∧
          extractErrorFromLogs logs = pyStrip l) ∨
       ((∀ y ∈ splitNl logs, errMarkerLine y = false) ∧
        ∃ pre l post, splitNl logs = pre ++ l :: post ∧ failPhraseLine l = true ∧
          (∀ y ∈ post, failPhraseLine y = false) ∧
          extractErrorFromLogs logs = pyStrip l) ∨
       ((∀ y ∈ splitNl logs, errMarkerLine y = false ∧ failPhraseLine y = false) ∧
        extractErrorFromLogs logs = genericFailMsg)) := by
  intro tr
  induction tr with
  | nil => intro r b h; simp [monitorRun] at h
  | cons o rest ih =>
    intro r b h hfail hlogs
    rw [monitorRun] at h
    split at h
    · cases h
      obtain ⟨ph, hph, hin⟩ := hfail
      simp [timeoutResult] at hph
      rw [← hph] at hin
      exact absurd hin (by decide)
    · split at h
      · simp at h
      · split at h
        · split at h
          · cases h
            obtain ⟨ph, hph, hin⟩ := hfail
            simp at hph
            rename_i hterm hcomp
            rw [← hph] at hin
            rw [hcomp] at hin
            exact absurd hin (by decide)
          · cases h
            obtain ⟨extract_ne, hsel⟩ := extractError_spec logs
            exact ⟨rfl, extract_ne, hsel⟩
        · split at h
          · cases h
            exact absurd rfl hlogs
          · exact ih r b h hfail hlogs

/-- Witness for `monitor_failure_error_nonempty`: a session that observes
phase `Failed` on its first poll, with logs whose last line carries an
explicit `ERROR:` marker. -/
theorem monitor_failure_error_nonempty_witness :
    failedResult.error = some (extractErrorFromLogs failLogs) ∧
    extractErrorFromLogs failLogs ≠ [] ∧
    ((∃ pre l post, splitNl failLogs = pre ++ l :: post ∧ errMarkerLine l = true ∧
        (∀ y ∈ post, errMarkerLine y = false) ∧
        extractErrorFromLogs failLogs = pyStrip l) ∨
     ((∀ y ∈ splitNl failLogs, errMarkerLine y = false) ∧
      ∃ pre l post, splitNl failLogs = pre ++ l :: post ∧ failPhraseLine l = true ∧
        (∀ y ∈ post, failPhraseLine y = false) ∧
        extractErrorFromLogs failLogs = pyStrip l) ∨
     ((∀ y ∈ splitNl failLogs, errMarkerLine y = false ∧ failPhraseLine y = false) ∧
      extractErrorFromLogs failLogs = genericFailMsg)) :=
  monitor_failure_error_nonempty 10 failLogs
    [⟨0, some "Failed".toList, false⟩] failedResult true (by decide)
    ⟨"Failed".toList, rfl, by decide⟩ (by simp [failedResult])

theorem extractAfterLit_none (lit : List Char) :
    ∀ s, extractAfterLit lit s = none → ¬ LitMatch lit s := by
  intro s
  induction s with
  | nil =>
    rintro _ ⟨a, c, b, heq, _⟩
    have hlen : ([] : List Char).length = (a ++ lit ++ c :: b).length := by rw [heq]
    simp at hlen
    omega
  | cons x t ih =>
    intro h hm
    rw [extractAfterLit] at h
    obtain ⟨a, c, b, heq, hc⟩ := hm
    cases a with
    | nil =>
      simp only [List.nil_append] at heq
      have hsw : startsWithB lit (x :: t) = true :=
        (startsWithB_iff _ _).mpr ⟨c :: b, heq⟩
      rw [if_pos hsw] at h
      have hdrop : (x :: t).drop lit.length = c :: b := by
        rw [heq]
        exact List.drop_left lit (c :: b)
      rw [hdrop] at h
      have hrun : takeNonSpace (c :: b) = c :: b.takeWhile (fun ch => !pyIsSpace ch) := by
        simp [takeNonSpace, List.takeWhile, hc]
      rw [hrun] at h
      simp at h
    | cons x' a' =>
      simp only [List.cons_append, List.cons.injEq] at heq
      obtain ⟨rfl, heq'⟩ := heq
      have hm' : LitMatch lit t := ⟨a', c, b, heq', hc⟩
      split at h
      · split at h
        · exact ih h hm'
        · simp at h
      · exact ih h hm'

theorem extractAfterLit_some (lit : List Char) :
    ∀ s n, extractAfterLit lit s = some n →
      n ≠ [] ∧ (∀ c ∈ n, pyIsSpace c = false) ∧ ∃ a b, s = a ++ lit ++ n ++ b := by
  intro s
  induction s with
  | nil => intro n h; simp [extractAfterLit] at h
  | cons x t ih =>
    intro n h
    rw [extractAfterLit] at h
    split at h
    · rename_i hsw
      split at h
      · obtain ⟨hne, hns, a, b, hsplit⟩ := ih n h
        exact ⟨hne, hns, x :: a, b, by simp [hsplit]⟩
      · rename_i hrun
        cases h
        obtain ⟨u, hu⟩ := (startsWithB_iff _ _).mp hsw
        have hdrop : (x :: t).drop lit.length = u := by
          rw [hu]
          exact List.drop_left lit u
        rw [hdrop] at hrun ⊢
        refine ⟨by simpa using hrun, ?_, ?_⟩
        · intro c hc
          have hw := List.mem_takeWhile_imp hc
          simpa using hw
        · refine ⟨[], u.dropWhile (fun ch => !pyIsSpace ch), ?_⟩
          rw [List.nil_append, hu, List.append_assoc]
          congr 1
          exact (List.takeWhile_append_dropWhile _ u).symm
    · obtain ⟨hne, hns, a, b, hsplit⟩ := ih n h
      exact ⟨hne, hns, x :: a, b, by simp [hsplit]⟩

/-- C9: `apply_buildconfig` returns the name pattern-matched from stdout when
the `buildconfig.build.openshift.io/(\S+)` pattern is present (a non-empty,
whitespace-free token sitting right after the literal in stdout) and otherwise
falls back to the name carried in the serialized definition; `start_build`
likewise returns the matched instance name, with fallback
`buildconfig_name + "-1"`.  Both are total: no stdout shape makes them fail. -/
theorem submit_start_extraction_fallback (stdout defName bcName : List Char) :
    (¬ LitMatch bcLit stdout → apply_buildconfig stdout defName = defName) ∧
    (LitMatch bcLit stdout → ∃ n, apply_buildconfig stdout defName = n ∧ n ≠ [] ∧
      (∀ c ∈ n, pyIsSpace c = false) ∧ ∃ a b, stdout = a ++ bcLit ++ n ++ b) ∧
    (¬ LitMatch buildLit stdout → start_build stdout bcName = bcName ++ "-1".toList) ∧
    (LitMatch buildLit stdout → ∃ n, start_build stdout bcName = n ∧ n ≠ [] ∧
      (∀ c ∈ n, pyIsSpace c = false) ∧ ∃ a b, stdout = a ++ buildLit ++ n ++ b) := by
  refine ⟨?_, ?_, ?_, ?_⟩
  · intro hnm
    unfold apply_buildconfig
    cases hx : extractAfterLit bcLit stdout with
    | none => rfl
    | some n =>
      obtain ⟨hne, hns, a, b, hsplit⟩ := extractAfterLit_some bcLit stdout n hx
      cases n with
      | nil => exact absurd rfl hne
      | cons c n' =>
        refine absurd ⟨a, c, n' ++ b, ?_, hns c (by simp)⟩ hnm
        simp [hsplit]
  · intro hm
    unfold apply_buildconfig
    cases hx : extractAfterLit bcLit stdout with
    | none => exact absurd hm (extractAfterLit_none bcLit stdout hx)
    | some n =>
      obtain ⟨hne, hns, a, b, hsplit⟩ := extractAfterLit_some bcLit stdout n hx
      exact ⟨n, rfl, hne, hns, a, b, hsplit⟩
  · intro hnm
    unfold start_build
    cases hx : extractAfterLit buildLit stdout with
    | none => rfl
    | some n =>
      obtain ⟨hne, hns, a, b, hsplit⟩ := extractAfterLit_some buildLit stdout n hx
      cases n with
      | nil => exact absurd rfl hne
      | cons c n' =>
        refine absurd ⟨a, c, n' ++ b, ?_, hns c (by simp)⟩ hnm
        simp [hsplit]
  · intro hm
    unfold start_build
    cases hx : extractAfterLit buildLit stdout with
    | none => exact absurd hm (extractAfterLit_none buildLit stdout hx)
    | some n =>
      obtain ⟨hne, hns, a, b, hsplit⟩ := extractAfterLit_some buildLit stdout n hx
      exact ⟨n, rfl, hne, hns, a, b, hsplit⟩

/-- Witness for `submit_start_extraction_fallback` on the service's documented
output line: the name `test-build` is extracted from apply output. -/
theorem submit_start_extraction_fallback_witness :
    ∃ n, apply_buildconfig
        "buildconfig.build.openshift.io/test-build created".toList
        "fallback-name".toList = n ∧ n ≠ [] ∧
      (∀ c ∈ n, pyIsSpace c = false) ∧
      ∃ a b, "buildconfig.build.openshift.io/test-build created".toList =
        a ++ bcLit ++ n ++ b :=
  (submit_start_extraction_fallback
    "buildconfig.build.openshift.io/test-build created".toList
    "fallback-name".toList "fallback-name".toList).2.1
    ⟨[], 't', "est-build created".toList, by decide, by decide⟩

/-- C10: `get_phase` maps a non-zero exit code of the external phase query, or
an exit-zero reply whose stdout is blank after stripping, to the string
`"Unknown"`, which lies outside the spec's closed phase enumeration; a
transport failure is thereby indistinguishable from an unknown phase: both
produce the same value.  Otherwise it returns the stripped stdout.  The
function is total on its two inputs. -/
theorem get_phase_unknown_total (rc : Int) (stdout : List Char) :
    (rc ≠ 0 → get_phase rc stdout = "Unknown".toList) ∧
    (pyStrip stdout = [] → get_phase rc stdout = "Unknown".toList) ∧
    ("Unknown".toList ∉ specPhases) ∧
    (rc ≠ 0 → get_phase rc stdout = get_phase 0 []) ∧
    (rc = 0 → pyStrip stdout ≠ [] → get_phase rc stdout = pyStrip stdout) := by
  refine ⟨?_, ?_, by decide, ?_, ?_⟩
  · intro h
    unfold get_phase
    rw [if_pos h]
  · intro h
    unfold get_phase
    by_cases hrc : rc ≠ 0
    · rw [if_pos hrc]
    · rw [if_neg hrc, if_pos h]
  · intro h
    unfold get_phase
    rw [if_pos h]
    decide
  · intro h1 h2
    unfold get_phase
    rw [if_neg (by simp [h1]), if_neg h2]

/-- Witness for `get_phase_unknown_total` at a failed query (exit code 1) with
non-blank stdout: the result is still `"Unknown"`. -/
theorem get_phase_unknown_total_witness :
    get_phase 1 "Running".toList = "Unknown".toList :=
  (get_phase_unknown_total 1 "Running".toList).1 (by decide)
